import Mathlib

/-!
goRP: timestamp codec, filter translation and response classification.

A shallow embedding of `gorp/model.go` and `gorp/client.go`.

* Go `int64` values are integers reduced with `wrapInt64`; Go `int` is taken at 64 bits.
* Go strings are Lean strings; the library functions the sources call
  (`strconv.ParseInt`, `strconv.FormatInt`, `strings.Trim`, `strings.TrimSpace`,
  `time.Unix`, `Time.UnixNano`, `Time.In`, `time.Parse`, resty's `Response.String`)
  are embedded from the Go standard library and from resty v1.
* A Go pointer that may be nil is an `Option`; dereferencing `none` is a `Panic`.
  The receivers of the `Timestamp` methods are taken as non-nil.
-/

namespace Gorp

/-! ## Machine integers -/

/-- Smallest `int64`. -/
def minInt64 : Int := -9223372036854775808

/-- Largest `int64`. -/
def maxInt64 : Int := 9223372036854775807

/-- Largest `uint64`. -/
def maxUint64 : Nat := 18446744073709551615

/-- Two's-complement reduction to the `int64` range: what Go's `int64`
arithmetic keeps of a mathematical result. -/
def wrapInt64 (x : Int) : Int :=
  (x + 9223372036854775808) % 18446744073709551616 - 9223372036854775808

/-- The integer is representable as an `int64`. -/
def InInt64 (x : Int) : Prop := minInt64 ≤ x ∧ x ≤ maxInt64

instance (x : Int) : Decidable (InInt64 x) := by
  unfold InInt64; exact inferInstance

/-! ## strconv -/

deriving instance DecidableEq for Except

/-- The two failures of `strconv` conversions: `ErrSyntax` and `ErrRange`. -/
inductive NumError where
  | invalid
  | outOfRange
  deriving DecidableEq, Repr

/-- An ASCII decimal digit. -/
def isDigit (c : Char) : Bool := decide (48 ≤ c.toNat) && decide (c.toNat ≤ 57)

/-- Value of a decimal digit, `c - '0'`. -/
def digitVal (c : Char) : Nat := c.toNat - 48

/-- The digit loop of `strconv.ParseUint(s, 10, 64)`: a character that is not a
decimal digit is a syntax error (letters decode to a digit `>= base`), `n >= cutoff`
with `cutoff = maxUint64/10 + 1` means `n*10` overflows, and `n1 < n || n1 > maxVal`
on the wrapped sum means `n*10 + d` exceeds `maxUint64`. -/
def parseUintLoop : List Char → Nat → Except NumError Nat
  | [], n => .ok n
  | c :: cs, n =>
    if isDigit c then
      if n ≥ maxUint64 / 10 + 1 then .error .outOfRange
      else if n * 10 + digitVal c > maxUint64 then .error .outOfRange
      else parseUintLoop cs (n * 10 + digitVal c)
    else .error .invalid

/-- `strconv.ParseUint(s, 10, 64)`. -/
def ParseUint (s : List Char) : Except NumError Nat :=
  match s with
  | [] => .error .invalid
  | _ => parseUintLoop s 0

/-- `strconv.ParseInt(s, 10, 64)`: optional sign, then `ParseUint`, then the
signed range check against `cutoff = 1 << 63`. -/
def ParseInt (s : String) : Except NumError Int :=
  match s.data with
  | [] => .error .invalid
  | c :: cs =>
    let neg := c == '-'
    let body := if c == '+' || c == '-' then cs else c :: cs
    match ParseUint body with
    | .error e => .error e
    | .ok un =>
      if !neg && un ≥ 9223372036854775808 then .error .outOfRange
      else if neg && un > 9223372036854775808 then .error .outOfRange
      else if neg then .ok (wrapInt64 (-(wrapInt64 un))) else .ok (wrapInt64 un)

/-- The character of a decimal digit. -/
def digitChar (d : Nat) : Char := Char.ofNat (48 + d)

/-- The base-10 loop of `strconv.formatBits`: digits are produced from the least
significant one and written in front of what is already there.  The fuel bounds the
number of digits (a `uint64` has at most 20). -/
def formatBits : Nat → Nat → List Char → List Char
  | 0, _, acc => acc
  | fuel + 1, u, acc =>
    if u < 10 then digitChar u :: acc
    else formatBits fuel (u / 10) (digitChar (u % 10) :: acc)

/-- `strconv.FormatInt(i, 10)`: the magnitude in decimal, after a minus sign
when `i` is negative. -/
def FormatInt (i : Int) : String :=
  if i < 0 then String.mk ('-' :: formatBits 20 i.natAbs [])
  else String.mk (formatBits 20 i.natAbs [])

/-- `strconv.Itoa(i)` is `FormatInt(int64(i), 10)`. -/
def Itoa (i : Int) : String := FormatInt i

/-! ## strings -/

/-- `strings.Trim(s, cutset)`: `s` without the leading and trailing characters
that occur in `cutset`. -/
def Trim (s cutset : String) : String :=
  String.mk (((s.data.dropWhile (fun c => cutset.data.contains c)).reverse.dropWhile
    (fun c => cutset.data.contains c)).reverse)

/-- `unicode.IsSpace`: the characters with Unicode's White Space property. -/
def isSpace (c : Char) : Bool :=
  let n := c.toNat
  (decide (9 ≤ n) && decide (n ≤ 13)) || n == 32 || n == 133 || n == 160 || n == 5760 ||
    (decide (8192 ≤ n) && decide (n ≤ 8202)) || n == 8232 || n == 8233 || n == 8239 ||
    n == 8287 || n == 12288

/-- `strings.TrimSpace(s)`: `s` without leading and trailing white space. -/
def TrimSpace (s : String) : String :=
  String.mk (((s.data.dropWhile isSpace).reverse.dropWhile isSpace).reverse)

/-! ## time -/

/-- A `*time.Location` as far as this package meets one: `time.UTC`, `time.Local`,
or a zone made by `time.FixedZone`. -/
inductive Location where
  | utc
  | localZone
  | fixed (name : String) (offset : Int)
  deriving DecidableEq, Repr

/-- A `time.Time`, read through its accessors: `sec` is `t.unixSec()`, the seconds
since 1970-01-01T00:00:00Z, `nsec` is `t.nsec()`, which lies in `[0, 999999999]`,
and `loc` is the location.  The monotonic reading is not modelled. -/
structure Time where
  sec : Int
  nsec : Fin 1000000000
  loc : Location
  deriving DecidableEq

/-- `Time.Equal`: the same instant, whatever the locations. -/
def Time.Equal (t u : Time) : Prop := t.sec = u.sec ∧ t.nsec = u.nsec

instance (t u : Time) : Decidable (t.Equal u) := by
  unfold Time.Equal; exact inferInstance

/-- `Time.In(loc)`: the same instant with the location set to `loc`. -/
def Time.In (t : Time) (loc : Location) : Time := { t with loc := loc }

/-- `Time.UnixNano`: `t.unixSec()*1e9 + int64(t.nsec())` in `int64` arithmetic. -/
def Time.UnixNano (t : Time) : Int := wrapInt64 (t.sec * 1000000000 + t.nsec.val)

/-- The exact number of nanoseconds from the Unix epoch to `t`. -/
def Time.nanosSinceEpoch (t : Time) : Int := t.sec * 1000000000 + t.nsec.val

/-- `time.unixTime(sec, nsec)`: the local time at that Unix second and nanosecond. -/
def unixTime (sec nsec : Int) : Time :=
  { sec := sec
    nsec := ⟨nsec.toNat % 1000000000, Nat.mod_lt _ (by norm_num)⟩
    loc := Location.localZone }

/-- `time.Unix(sec, nsec)`: a `nsec` outside `[0, 1e9)` is carried into `sec`. -/
def Unix (sec nsec : Int) : Time :=
  if nsec < 0 ∨ nsec ≥ 1000000000 then
    let n := Int.tdiv nsec 1000000000
    let sec1 := wrapInt64 (sec + n)
    let nsec1 := wrapInt64 (nsec - wrapInt64 (n * 1000000000))
    if nsec1 < 0 then unixTime (wrapInt64 (sec1 - 1)) (wrapInt64 (nsec1 + 1000000000))
    else unixTime sec1 nsec1
  else unixTime sec nsec

/-- The layout constant of `model.go`. -/
def defaultDateTimeFormat : String := "2006-01-02T15:04:05.999-0700"

/-- A `*time.ParseError`: the layout and the text that did not parse (the element
and message fields are left out). -/
structure ParseError where
  Layout : String
  Value : String
  deriving DecidableEq, Repr

/-- `time.isDigit(s, i)`. -/
def isDigitAt (s : List Char) (i : Nat) : Bool :=
  match s.get? i with
  | some c => isDigit c
  | none => false

/-- `time.leadingInt`: the value of the leading digits and the rest. -/
def leadingInt : List Char → Nat → Option (Nat × List Char)
  | [], x => some (x, [])
  | c :: cs, x =>
    if isDigit c then
      if x > 922337203685477580 then none
      else if x * 10 + digitVal c > 9223372036854775807 then none
      else leadingInt cs (x * 10 + digitVal c)
    else some (x, c :: cs)

/-- `time.atoi`: an optional sign and then digits only. -/
def atoi (s : List Char) : Option Int :=
  let neg := s.head? == some '-'
  let body := if s.head? == some '-' || s.head? == some '+' then s.drop 1 else s
  match leadingInt body 0 with
  | some (q, []) => if neg then some (-(q : Int)) else some (q : Int)
  | _ => none

/-- `time.getnum(s, fixed)`: a one or two digit number, two digits when `fixed`. -/
def getnum (s : List Char) (fixed : Bool) : Option (Int × List Char) :=
  if !isDigitAt s 0 then none
  else if !isDigitAt s 1 then
    if fixed then none else some ((digitVal (s.headD '0') : Int), s.drop 1)
  else some ((digitVal (s.headD '0') * 10 + digitVal ((s.drop 1).headD '0') : Nat), s.drop 2)

/-- `time.skip(value, lit)` for a literal without blanks: `value` must start with it. -/
def skip : List Char → List Char → Option (List Char)
  | value, [] => some value
  | [], _ :: _ => none
  | v :: vs, p :: ps => if v = p then skip vs ps else none

/-- `time.isLeap`. -/
def isLeap (year : Int) : Bool :=
  year % 4 == 0 && (year % 100 != 0 || year % 400 == 0)

/-- `time.daysBefore`: days of a non-leap year before each month. -/
def daysBefore : List Int := [0, 31, 59, 90, 120, 151, 181, 212, 243, 273, 304, 334, 365]

/-- `time.daysIn(m, year)`. -/
def daysIn (m year : Int) : Int :=
  if m == 2 && isLeap year then 29
  else daysBefore.getD m.toNat 0 - daysBefore.getD (m.toNat - 1) 0

/-- Unix second of `time.Date(year, month, day, hour, min, sec, _, UTC)` for fields
already in range: the days before the year, before the month and before the
day, counted from 1970-01-01, and the seconds of the day. -/
def dateUnix (year month day hour min sec : Int) : Int :=
  let y := year - 1
  let d := 365 * y + y / 4 - y / 100 + y / 400 - 719162
    + daysBefore.getD (month.toNat - 1) 0
    + (if isLeap year && decide (month ≥ 3) then 1 else 0)
    + (day - 1)
  d * 86400 + hour * 3600 + min * 60 + sec

/-- The `stdFracSecond9` element `.999`: an optional period and up to nine
digits, scaled to nanoseconds (`time.parseNanoseconds`). -/
def fracSecond (value : List Char) : Option (Nat × List Char) :=
  if value.length < 2 || value.head? != some '.' || !isDigitAt value 1 then some (0, value)
  else
    let digits := ((value.drop 1).takeWhile isDigit).take 9
    match atoi digits with
    | none => none
    | some ns =>
      if ns < 0 ∨ 1000000000 ≤ ns then none
      else some (ns.toNat * 10 ^ (9 - digits.length) % 1000000000, value.drop (1 + digits.length))

/-- The sign of a numeric zone applied to the offset in seconds: `+` keeps it,
`-` negates it, anything else is an error. -/
def applySign (sign : Option Char) (offset : Int) : Option Int :=
  if sign == some '+' then some offset
  else if sign == some '-' then some (-offset)
  else none

/-- The date elements of the layout, `2006`, `-`, `01`, `-`, `02`: year, month,
day and the rest of the text.  The year is four characters starting with a
digit, the month lies in 1..12, the day is checked once the text is read. -/
def parseDateElems (value0 : List Char) : Option (Int × Int × Int × List Char) :=
  if value0.length < 4 || !isDigitAt value0 0 then none
  else
    (atoi (value0.take 4)).bind fun year =>
    (skip (value0.drop 4) ['-']).bind fun value =>
    (getnum value true).bind fun (month, value) =>
    if month ≤ 0 ∨ 12 < month then none
    else
      (skip value ['-']).bind fun value =>
      (getnum value true).bind fun (day, value) =>
      some (year, month, day, value)

/-- The clock elements of the layout, `T`, `15`, `:`, `04`, `:`, `05`, `.999`:
hour, minute, second, nanoseconds and the rest of the text. -/
def parseClockElems (value : List Char) : Option (Int × Int × Int × Nat × List Char) :=
  (skip value ['T']).bind fun value =>
  (getnum value false).bind fun (hour, value) =>
  if hour < 0 ∨ 24 ≤ hour then none
  else
    (skip value [':']).bind fun value =>
    (getnum value true).bind fun (min, value) =>
    if min < 0 ∨ 60 ≤ min then none
    else
      (skip value [':']).bind fun value =>
      (getnum value true).bind fun (sec, value) =>
      if sec < 0 ∨ 60 ≤ sec then none
      else
        (fracSecond value).bind fun (nsec, value) =>
        some (hour, min, sec, nsec, value)

/-- The zone element of the layout, `-0700`: a sign, two characters of hours and
two of minutes; the offset in seconds and the rest of the text. -/
def parseZoneElem (value : List Char) : Option (Int × List Char) :=
  if value.length < 5 then none
  else
    (atoi ((value.drop 1).take 2)).bind fun hr =>
    (atoi ((value.drop 3).take 2)).bind fun mm =>
    (applySign value.head? ((hr * 60 + mm) * 60)).bind fun zoneOffset =>
    some (zoneOffset, value.drop 5)

/-- The elements of `time.Parse(defaultDateTimeFormat, value)` in layout order:
the date, the clock, the zone, the end of the text, and the check of the day
against the month (Go 1.13 `time.parse`).  The result carries a fixed zone of the
parsed offset; Go substitutes `time.Local` when the host zone has that offset at
that instant, which names the same instant. -/
def parseDefaultLayout (value0 : List Char) : Option Time :=
  (parseDateElems value0).bind fun (year, month, day, value) =>
  (parseClockElems value).bind fun (hour, min, sec, nsec, value) =>
  (parseZoneElem value).bind fun (zoneOffset, value) =>
  if value ≠ [] then none
  else if day < 1 ∨ day > daysIn month year then none
  else
    some { sec := dateUnix year month day hour min sec - zoneOffset
           nsec := ⟨nsec % 1000000000, Nat.mod_lt _ (by norm_num)⟩
           loc := Location.fixed "" zoneOffset }

/-- `time.Parse(layout, value)` at the layout `defaultDateTimeFormat`, the only
layout this package parses with. -/
def timeParse (layout value : String) : Except ParseError Time :=
  match parseDefaultLayout value.data with
  | some t => .ok t
  | none => .error { Layout := layout, Value := value }

/-! ## model.go: Timestamp -/

/-- Timestamp is a wrapper around Time to support Epoch milliseconds. -/
structure Timestamp where
  Time : Time
  deriving DecidableEq

/-- `UnmarshalJSON` of `model.go`: the receiver after the call and the returned
error (`none` is Go's `nil`). -/
def Timestamp.UnmarshalJSON (rt : Timestamp) (b : String) : Timestamp × Option ParseError :=
  let trimmed := Trim b "\""
  match ParseInt trimmed with
  | .error _ =>
    match timeParse defaultDateTimeFormat trimmed with
    | .error err => (rt, some err)
    | .ok dt => ({ Time := dt }, none)
  | .ok msInt => ({ Time := Unix 0 (wrapInt64 (msInt * 1000000)) }, none)

/-- `MarshalJSON` of `model.go`: the bytes and the error, which is always `nil`. -/
def Timestamp.MarshalJSON (rt : Timestamp) : String × Option ParseError :=
  (FormatInt (Int.tdiv (rt.Time.In Location.utc).UnixNano 1000000), none)

/-- `t.Truncate(time.Millisecond)`: `t` rounded down to a whole millisecond. -/
def Time.truncateMillis (t : Time) : Time :=
  { t with nsec := ⟨t.nsec.val - t.nsec.val % 1000000,
      lt_of_le_of_lt (Nat.sub_le _ _) t.nsec.isLt⟩ }

/-! ## model.go: filters and pages -/

/-- FilterEntity - One piece of filter. -/
structure FilterEntity where
  Field : String
  Condition : String
  Value : String
  deriving DecidableEq, Repr

/-- FilterOrder - Describes ordering. -/
structure FilterOrder where
  SortingColumn : String
  Asc : Bool
  deriving DecidableEq, Repr

/-- FilterSelectionParam - Describes filter ordering.  `Orders` is a slice of
pointers: an entry may be nil, and the nil slice is the empty list. -/
structure FilterSelectionParam where
  PageNumber : Int
  Orders : List (Option FilterOrder)
  deriving DecidableEq, Repr

/-- FilterResource - GET Filter response model (`Type_` is the field `Type`).
`Entities` is a slice of pointers and `SelectionParams` a pointer. -/
structure FilterResource where
  ID : String
  Name : String
  Type_ : String
  Owner : String
  Entities : List (Option FilterEntity)
  SelectionParams : Option FilterSelectionParam
  deriving DecidableEq, Repr

/-- The `Page` member of `Response`. -/
structure PageInfo where
  Number : Int
  Size : Int
  TotalElements : Int
  TotalPages : Int
  deriving DecidableEq, Repr

/-- Response is a representation of server response. -/
structure Response where
  Page : PageInfo
  deriving DecidableEq, Repr

/-- FilterPage - GET Filter response model: the content and the embedded `Response`. -/
structure FilterPage where
  Content : List (Option FilterResource)
  Response : Response
  deriving DecidableEq, Repr

/-- LaunchResource - GET Launch response model (`ApproximateDuration`, a float, and
`Statistics` are left out: nothing in `client.go` reads a launch). -/
structure LaunchResource where
  ID : String
  Name : String
  Number : Int
  Description : String
  StartTime : Timestamp
  EndTime : Timestamp
  Status : String
  Tags : List String
  Mode : String
  HasRetries : Bool
  deriving DecidableEq

/-- LaunchPage - GET Launch response model. -/
structure LaunchPage where
  Content : List (Option LaunchResource)
  Response : Response
  deriving DecidableEq

/-! ## client.go -/

/-- The run-time panics the client code can raise. -/
inductive Panic where
  | nilDereference
  | indexOutOfRange
  deriving DecidableEq, Repr

/-- A Go `map[string]string`: at most one pair for a key. -/
abbrev Params := List (String × String)

/-- The map read at a key, `m[k]` with its presence flag. -/
def Params.get (m : Params) (k : String) : Option String := List.lookup k m

/-- The assignment `m[k] = v`: an earlier value of the key is replaced. -/
def Params.set (m : Params) (k v : String) : Params :=
  (k, v) :: m.filter (fun p => p.1 != k)

/-- The function `directionToStr` of `client.go`. -/
def directionToStr (asc : Bool) : String := if asc then "ASC" else "DESC"

/-- The key `fmt.Sprintf("filter.%s.%s", f.Condition, f.Field)`. -/
def entityKey (f : FilterEntity) : String := "filter." ++ f.Condition ++ "." ++ f.Field

/-- The value `fmt.Sprintf("%s,%s", order.SortingColumn, directionToStr(order.Asc))`. -/
def orderValue (order : FilterOrder) : String :=
  order.SortingColumn ++ "," ++ directionToStr order.Asc

/-- The loop over `filter.Entities` of `ConvertToFilterParams`; reading a field of a
nil entry panics. -/
def addEntities : List (Option FilterEntity) → Params → Except Panic Params
  | [], params => .ok params
  | none :: _, _ => .error Panic.nilDereference
  | some f :: rest, params => addEntities rest (params.set (entityKey f) f.Value)

/-- The loop over `filter.SelectionParams.Orders` of `ConvertToFilterParams`. -/
def addOrders : List (Option FilterOrder) → Params → Except Panic Params
  | [], params => .ok params
  | none :: _, _ => .error Panic.nilDereference
  | some order :: rest, params => addOrders rest (params.set "page.sort" (orderValue order))

/-- ConvertToFilterParams converts RP internal filter representation to query string. -/
def ConvertToFilterParams (filter : Option FilterResource) : Except Panic Params :=
  match filter with
  | none => .error Panic.nilDereference
  | some filter =>
    match addEntities filter.Entities [] with
    | .error p => .error p
    | .ok params =>
      match filter.SelectionParams with
      | none => .ok params
      | some sel =>
        addOrders sel.Orders
          (if sel.PageNumber != 0 then params.set "page.page" (Itoa sel.PageNumber) else params)

/-- A `resty.Response` as the hook reads it: the status code and the body. -/
structure RestyResponse where
  StatusCode : Int
  body : String
  deriving DecidableEq, Repr

/-- The method `String` of resty v1 `Response`: `strings.TrimSpace(string(r.body))`. -/
def RestyResponse.String (rs : RestyResponse) : String := TrimSpace rs.body

/-- The `OnAfterResponse` hook installed by `NewClient`: the error
`fmt.Errorf("status code error: %d\n%s", rs.StatusCode(), rs.String())`, or nil. -/
def onAfterResponse (rs : RestyResponse) : Option String :=
  if Int.tdiv rs.StatusCode 100 ≥ 4 then
    some ("status code error: " ++ Itoa rs.StatusCode ++ "\n" ++ rs.String)
  else none

/-- What the HTTP layer answers: the decoded page and the error of a request, for
the filter query (project, name) and for the launch query (project, parameters). -/
structure Transport where
  getFilter : String → String → FilterPage × Option String
  getLaunch : String → Params → LaunchPage × Option String

/-- Client is ReportPortal REST API Client. -/
structure Client where
  project : String
  http : Transport

/-- A request sent to the server. -/
inductive Call where
  | filterQuery (project name : String)
  | launchQuery (project : String) (params : Params)
  deriving DecidableEq, Repr

/-- The requests a method sent, in order, and how it ended: a panic, or the
returned page pointer and error. -/
structure Outcome (α : Type) where
  calls : List Call
  result : Except Panic (Option α × Option String)

/-- GetFiltersByName retrieves filter by its name: the decoded page (the returned
pointer is never nil) and the error of the request. -/
def Client.GetFiltersByName (c : Client) (name : String) : FilterPage × Option String :=
  c.http.getFilter c.project name

/-- GetLaunchesByFilterName retrieves launches by filter name. -/
def Client.GetLaunchesByFilterName (c : Client) (name : String) : Outcome LaunchPage :=
  let calls := [Call.filterQuery c.project name]
  let filter := (c.GetFiltersByName name).1
  match (c.GetFiltersByName name).2 with
  | some err => { calls := calls, result := .ok (none, some err) }
  | none =>
    if filter.Response.Page.Size < 1 then
      { calls := calls, result := .ok (none, some ("no filter " ++ name ++ " found")) }
    else
      match filter.Content with
      | [] => { calls := calls, result := .error Panic.indexOutOfRange }
      | first :: _ =>
        match ConvertToFilterParams first with
        | .error p => { calls := calls, result := .error p }
        | .ok params =>
          { calls := calls ++ [Call.launchQuery c.project params]
            result := .ok (some (c.http.getLaunch c.project params).1,
              (c.http.getLaunch c.project params).2) }

/-! ## Arithmetic facts -/

theorem wrapInt64_of_inInt64 {x : Int} (h : InInt64 x) : wrapInt64 x = x := by
  unfold InInt64 minInt64 maxInt64 at h
  unfold wrapInt64
  omega

theorem wrapInt64_inInt64 (x : Int) : InInt64 (wrapInt64 x) := by
  unfold InInt64 minInt64 maxInt64 wrapInt64
  omega

theorem tdiv_lit (a d : Int) (hd : 0 < d) :
    Int.tdiv a d = if 0 ≤ a then a / d else -((-a) / d) := by
  split
  · exact Int.tdiv_eq_ediv (by assumption) (le_of_lt hd)
  · have h1 : Int.tdiv (-a) d = (-a) / d := Int.tdiv_eq_ediv (by omega) (le_of_lt hd)
    rw [Int.neg_tdiv] at h1
    omega

/-! ## Decimal text -/

theorem isDigit_digitChar {d : Nat} (h : d < 10) : isDigit (digitChar d) = true := by
  interval_cases d <;> rfl

theorem digitVal_digitChar {d : Nat} (h : d < 10) : digitVal (digitChar d) = d := by
  interval_cases d <;> rfl

theorem formatBits_cons_ne_nil (fuel u : Nat) (c : Char) (acc : List Char) :
    formatBits fuel u (c :: acc) ≠ [] := by
  induction fuel generalizing u c acc with
  | zero => simp [formatBits]
  | succ n ih =>
    unfold formatBits
    split
    · simp
    · exact ih _ _ _

theorem formatBits_succ_ne_nil (fuel u : Nat) (acc : List Char) :
    formatBits (fuel + 1) u acc ≠ [] := by
  unfold formatBits
  split
  · simp
  · exact formatBits_cons_ne_nil _ _ _ _

theorem formatBits_mem (fuel u : Nat) (acc : List Char) (c : Char)
    (h : c ∈ formatBits fuel u acc) : isDigit c = true ∨ c ∈ acc := by
  induction fuel generalizing u acc with
  | zero => right; simpa [formatBits] using h
  | succ n ih =>
    unfold formatBits at h
    split at h
    · rcases List.mem_cons.1 h with h | h
      · left; rw [h]; exact isDigit_digitChar (by assumption)
      · right; exact h
    · rcases ih _ _ h with h | h
      · left; exact h
      · rcases List.mem_cons.1 h with h | h
        · left; rw [h]; exact isDigit_digitChar (Nat.mod_lt _ (by norm_num))
        · right; exact h

theorem parseUintLoop_digit (d n : Nat) (acc : List Char) (hd : d < 10)
    (h : n * 10 + d ≤ maxUint64) :
    parseUintLoop (digitChar d :: acc) n = parseUintLoop acc (n * 10 + d) := by
  unfold maxUint64 at h
  rw [parseUintLoop]
  simp only [isDigit_digitChar hd, digitVal_digitChar hd, if_true]
  rw [if_neg (by unfold maxUint64; omega), if_neg (by unfold maxUint64; omega)]

theorem parseUintLoop_formatBits (fuel u : Nat) (acc : List Char)
    (hf : u < 10 ^ fuel) (hu : u ≤ maxUint64) :
    parseUintLoop (formatBits fuel u acc) 0 = parseUintLoop acc u := by
  induction fuel generalizing u acc with
  | zero =>
    have : u = 0 := by simpa using hf
    subst this
    rfl
  | succ n ih =>
    unfold formatBits
    split
    · rename_i h10
      rw [parseUintLoop_digit u 0 acc h10 (by omega)]
      simp
    · rename_i h10
      have hq : u / 10 < 10 ^ n := by
        rw [Nat.div_lt_iff_lt_mul (by norm_num)]
        rw [pow_succ] at hf
        exact hf
      rw [ih (u / 10) _ hq (le_trans (Nat.div_le_self _ _) hu)]
      rw [parseUintLoop_digit (u % 10) (u / 10) acc (Nat.mod_lt _ (by norm_num)) (by omega)]
      congr 1
      omega

theorem ParseUint_formatBits (u : Nat) (hu : u ≤ maxUint64) :
    ParseUint (formatBits 20 u []) = .ok u := by
  have h := parseUintLoop_formatBits 20 u [] (by unfold maxUint64 at hu; omega) hu
  have hne := formatBits_succ_ne_nil 19 u []
  unfold ParseUint
  split
  · rename_i heq
    exact absurd heq hne
  · rw [h]; rfl

theorem formatBits_head (u : Nat) :
    ∃ c cs, formatBits 20 u [] = c :: cs ∧ isDigit c = true := by
  have hne := formatBits_succ_ne_nil 19 u []
  cases h : formatBits 20 u [] with
  | nil => exact absurd h hne
  | cons c cs =>
    refine ⟨c, cs, rfl, ?_⟩
    have hm : c ∈ formatBits 20 u [] := by rw [h]; exact List.mem_cons_self _ _
    rcases formatBits_mem _ _ _ _ hm with h | h
    · exact h
    · simp at h

theorem ParseInt_FormatInt (m : Int) (h : InInt64 m) : ParseInt (FormatInt m) = .ok m := by
  unfold InInt64 minInt64 maxInt64 at h
  have hu : m.natAbs ≤ maxUint64 := by unfold maxUint64; omega
  have hp := ParseUint_formatBits m.natAbs hu
  unfold FormatInt
  split
  · rename_i hneg
    simp only [ParseInt]
    simp only [beq_self_eq_true, Bool.or_true, if_true, hp]
    have h1 : ¬ (m.natAbs > 9223372036854775808) := by omega
    simp [h1, wrapInt64, -Int.natCast_natAbs]
    omega
  · rename_i hneg
    obtain ⟨c, cs, hcs, hc⟩ := formatBits_head m.natAbs
    have hplus : (c == '+') = false := by
      rw [beq_eq_false_iff_ne]; intro hh; rw [hh] at hc; exact absurd hc (by decide)
    have hminus : (c == '-') = false := by
      rw [beq_eq_false_iff_ne]; intro hh; rw [hh] at hc; exact absurd hc (by decide)
    simp only [ParseInt, hcs]
    simp only [hplus, hminus, Bool.or_false, Bool.false_eq_true, if_false, ← hcs, hp]
    have h1 : ¬ (m.natAbs ≥ 9223372036854775808) := by omega
    simp [h1, wrapInt64, -Int.natCast_natAbs]
    omega

/-! ## Instants -/

theorem Time.equal_of_nanos {t u : Time} (h : t.nanosSinceEpoch = u.nanosSinceEpoch) :
    t.Equal u := by
  unfold Time.nanosSinceEpoch at h
  have h1 := t.nsec.isLt
  have h2 := u.nsec.isLt
  unfold Time.Equal
  refine ⟨by omega, Fin.ext (by omega)⟩

theorem Unix_nanos (ns : Int) (h : InInt64 ns) : (Unix 0 ns).nanosSinceEpoch = ns := by
  unfold InInt64 minInt64 maxInt64 at h
  unfold Unix unixTime Time.nanosSinceEpoch wrapInt64
  simp only [tdiv_lit ns 1000000000 (by norm_num)]
  split_ifs <;> dsimp only <;> omega

theorem Time.UnixNano_In (t : Time) (l : Location) : (t.In l).UnixNano = t.UnixNano := rfl

theorem UnixNano_of_inInt64 (t : Time) (h : InInt64 t.nanosSinceEpoch) :
    t.UnixNano = t.nanosSinceEpoch := wrapInt64_of_inInt64 h

/-! ## Trimming decimal text -/

theorem dropWhile_eq_self {p : Char → Bool} {l : List Char}
    (h : ∀ c ∈ l, p c = false) : l.dropWhile p = l := by
  cases l with
  | nil => rfl
  | cons a as => simp [List.dropWhile, h a (List.mem_cons_self _ _)]

theorem FormatInt_mem (m : Int) (c : Char) (h : c ∈ (FormatInt m).data) :
    isDigit c = true ∨ c = '-' := by
  unfold FormatInt at h
  split at h
  · rcases List.mem_cons.1 h with h | h
    · right; exact h
    · rcases formatBits_mem _ _ _ _ h with h | h
      · left; exact h
      · simp at h
  · rcases formatBits_mem _ _ _ _ h with h | h
    · left; exact h
    · simp at h

theorem Trim_FormatInt (m : Int) : Trim (FormatInt m) "\"" = FormatInt m := by
  have hq : ∀ c ∈ (FormatInt m).data, (fun c => ("\"" : String).data.contains c) c = false := by
    intro c hc
    have hd : ("\"" : String).data = [Char.ofNat 34] := rfl
    rcases FormatInt_mem m c hc with h | h
    · have : c ≠ Char.ofNat 34 := by intro hh; rw [hh] at h; exact absurd h (by decide)
      simp [hd, this]
    · rw [h]; decide
  unfold Trim
  rw [dropWhile_eq_self hq]
  rw [dropWhile_eq_self (l := (FormatInt m).data.reverse)
    (fun c hc => hq c (List.mem_reverse.1 hc))]
  simp

theorem UnmarshalJSON_FormatInt (rt : Timestamp) (m : Int) (h : InInt64 m) :
    rt.UnmarshalJSON (FormatInt m) = ({ Time := Unix 0 (wrapInt64 (m * 1000000)) }, none) := by
  unfold Timestamp.UnmarshalJSON
  simp only [Trim_FormatInt, ParseInt_FormatInt m h]

/-! ## Timestamp codec: claims -/

theorem MarshalJSON_eq (rt : Timestamp) :
    rt.MarshalJSON = (FormatInt (Int.tdiv rt.Time.UnixNano 1000000), none) := rfl

theorem tdiv_millis_inInt64 (x : Int) (h : InInt64 x) : InInt64 (Int.tdiv x 1000000) := by
  unfold InInt64 minInt64 maxInt64 at *
  rw [tdiv_lit x 1000000 (by norm_num)]
  split <;> omega

theorem tdiv_millis_mul_inInt64 (x : Int) (h : InInt64 x) :
    InInt64 (Int.tdiv x 1000000 * 1000000) := by
  unfold InInt64 minInt64 maxInt64 at *
  rw [tdiv_lit x 1000000 (by norm_num)]
  split <;> omega

/-- C9, the claim as stated fails: for the instant one nanosecond before the Unix
epoch `MarshalJSON` returns `0`, while the floor of the elapsed milliseconds is `-1`. -/
theorem MarshalJSON_not_floor :
    (Timestamp.mk ⟨-1, 999999999, Location.utc⟩).MarshalJSON.1 = "0" ∧
    FormatInt (Int.fdiv (Time.nanosSinceEpoch ⟨-1, 999999999, Location.utc⟩) 1000000) = "-1" ∧
    (Timestamp.mk ⟨-1, 999999999, Location.utc⟩).MarshalJSON.1 ≠
      FormatInt (Int.fdiv (Time.nanosSinceEpoch ⟨-1, 999999999, Location.utc⟩) 1000000) := by
  decide

/-- C9 (amended): for every Timestamp, `MarshalJSON` returns no error, its text does
not depend on the location, and the text is the decimal form (it parses back with
`ParseInt`) of the `int64` nanosecond count since the epoch divided by 1,000,000
with truncation toward zero.  That number is the floor of the elapsed milliseconds
whenever the exact nanosecond count fits in an `int64` and is non-negative or a
whole number of milliseconds. -/
theorem MarshalJSON_millis (rt : Timestamp) :
    rt.MarshalJSON.2 = none ∧
    (∀ l : Location, (Timestamp.mk (rt.Time.In l)).MarshalJSON = rt.MarshalJSON) ∧
    rt.MarshalJSON.1 = FormatInt (Int.tdiv rt.Time.UnixNano 1000000) ∧
    ParseInt rt.MarshalJSON.1 = .ok (Int.tdiv rt.Time.UnixNano 1000000) ∧
    (InInt64 rt.Time.nanosSinceEpoch →
      (0 ≤ rt.Time.nanosSinceEpoch ∨ rt.Time.nanosSinceEpoch % 1000000 = 0) →
      rt.MarshalJSON.1 = FormatInt (Int.fdiv rt.Time.nanosSinceEpoch 1000000)) := by
  refine ⟨rfl, fun _ => rfl, rfl, ?_, ?_⟩
  · exact ParseInt_FormatInt _ (tdiv_millis_inInt64 _ (wrapInt64_inInt64 _))
  · intro h hz
    rw [MarshalJSON_eq]
    show FormatInt (Int.tdiv rt.Time.UnixNano 1000000) = _
    rw [UnixNano_of_inInt64 _ h, Int.fdiv_eq_ediv _ (by norm_num : (0 : Int) ≤ 1000000),
      tdiv_lit _ 1000000 (by norm_num)]
    congr 1
    split <;> omega

/-- C9 (amended), at the instant two milliseconds before the epoch. -/
theorem MarshalJSON_millis_witness :
    (Timestamp.mk ⟨-1, 998000000, Location.localZone⟩).MarshalJSON.1 = "-2" ∧
    (Timestamp.mk ⟨-1, 998000000, Location.localZone⟩).MarshalJSON.1 =
      FormatInt (Int.fdiv (Time.nanosSinceEpoch ⟨-1, 998000000, Location.localZone⟩) 1000000) :=
  ⟨by decide,
   (MarshalJSON_millis (Timestamp.mk ⟨-1, 998000000, Location.localZone⟩)).2.2.2.2
     (by decide) (by decide)⟩

/-- C2, the claim as stated fails: the `int64` 9223372036855 times 1,000,000 does not
fit in an `int64`; decoding its decimal text gives an instant that is not that many
milliseconds after the epoch, and encoding that instant gives another text. -/
theorem UnmarshalJSON_millis_overflow :
    InInt64 9223372036855 ∧
    ((Timestamp.mk (Unix 0 0)).UnmarshalJSON (FormatInt 9223372036855)).2 = none ∧
    ((Timestamp.mk (Unix 0 0)).UnmarshalJSON (FormatInt 9223372036855)).1.Time.nanosSinceEpoch
      ≠ 9223372036855 * 1000000 ∧
    ((Timestamp.mk (Unix 0 0)).UnmarshalJSON (FormatInt 9223372036855)).1.MarshalJSON.1
      ≠ FormatInt 9223372036855 := by
  decide

theorem UnmarshalJSON_of_fitting_millis (rt : Timestamp) (m : Int)
    (h : InInt64 (m * 1000000)) :
    rt.UnmarshalJSON (FormatInt m) = ({ Time := Unix 0 (m * 1000000) }, none) ∧
    (Unix 0 (m * 1000000)).nanosSinceEpoch = m * 1000000 ∧
    (Timestamp.mk (Unix 0 (m * 1000000))).MarshalJSON = (FormatInt m, none) := by
  have hm : InInt64 m := by unfold InInt64 minInt64 maxInt64 at *; omega
  have hn := Unix_nanos _ h
  refine ⟨?_, hn, ?_⟩
  · rw [UnmarshalJSON_FormatInt rt m hm, wrapInt64_of_inInt64 h]
  · rw [MarshalJSON_eq]
    show (FormatInt (Int.tdiv (Unix 0 (m * 1000000)).UnixNano 1000000), none) = _
    rw [UnixNano_of_inInt64 _ (by rw [hn]; exact h), hn, tdiv_lit _ 1000000 (by norm_num)]
    congr 2
    split <;> omega

/-- C2 (amended): for every `int64` `m` whose product with 1,000,000 fits in an
`int64`, `UnmarshalJSON` of the decimal text of `m` succeeds and gives the instant
exactly `m` milliseconds after the Unix epoch, and `MarshalJSON` of that instant
returns the decimal text of `m`. -/
theorem UnmarshalJSON_millis (rt : Timestamp) (m : Int) (h : InInt64 (m * 1000000)) :
    InInt64 m ∧
    rt.UnmarshalJSON (FormatInt m) = ({ Time := Unix 0 (m * 1000000) }, none) ∧
    (Unix 0 (m * 1000000)).nanosSinceEpoch = m * 1000000 ∧
    (Timestamp.mk (Unix 0 (m * 1000000))).MarshalJSON = (FormatInt m, none) := by
  have hm : InInt64 m := by unfold InInt64 minInt64 maxInt64 at *; omega
  exact ⟨hm, UnmarshalJSON_of_fitting_millis rt m h⟩

/-- C2 (amended), at `m = -1552210496789`, whose decimal text is `-1552210496789`. -/
theorem UnmarshalJSON_millis_witness :
    InInt64 (-1552210496789 * 1000000) ∧
    FormatInt (-1552210496789) = "-1552210496789" ∧
    (Timestamp.mk (Unix 0 0)).UnmarshalJSON (FormatInt (-1552210496789))
      = ({ Time := Unix 0 (-1552210496789 * 1000000) }, none) ∧
    (Timestamp.mk (Unix 0 (-1552210496789 * 1000000))).MarshalJSON
      = (FormatInt (-1552210496789), none) :=
  ⟨by decide, by decide,
   (UnmarshalJSON_millis (Timestamp.mk (Unix 0 0)) (-1552210496789) (by decide)).2.1,
   (UnmarshalJSON_millis (Timestamp.mk (Unix 0 0)) (-1552210496789) (by decide)).2.2.2⟩

/-- C1, the claim as stated fails twice: for the instant one nanosecond before the
Unix epoch the round trip gives the epoch, not the instant truncated to the
millisecond; and for 2262-04-11T23:47:17Z, whose nanosecond count does not fit in an
`int64`, it gives an instant before the epoch. -/
theorem roundtrip_not_truncation :
    ¬ ((Timestamp.mk (Unix 0 0)).UnmarshalJSON
        (Timestamp.mk ⟨-1, 999999999, Location.utc⟩).MarshalJSON.1).1.Time.Equal
        (Time.truncateMillis ⟨-1, 999999999, Location.utc⟩) ∧
    ¬ InInt64 (Time.nanosSinceEpoch ⟨9223372037, 0, Location.utc⟩) ∧
    ¬ ((Timestamp.mk (Unix 0 0)).UnmarshalJSON
        (Timestamp.mk ⟨9223372037, 0, Location.utc⟩).MarshalJSON.1).1.Time.Equal
        (Time.truncateMillis ⟨9223372037, 0, Location.utc⟩) := by
  decide

/-- C1 (amended): for every Timestamp `t` whose nanosecond count since the Unix
epoch fits in an `int64`, decoding the bytes produced by encoding `t` succeeds and
yields the instant whose nanosecond count is that of `t` rounded toward zero to a
whole number of milliseconds; this is `t` truncated to whole milliseconds
whenever `t` is not before the epoch or is a whole number of milliseconds. -/
theorem roundtrip_toward_epoch (rt t : Timestamp) (h : InInt64 t.Time.nanosSinceEpoch) :
    (rt.UnmarshalJSON t.MarshalJSON.1).2 = none ∧
    (rt.UnmarshalJSON t.MarshalJSON.1).1.Time.nanosSinceEpoch
      = Int.tdiv t.Time.nanosSinceEpoch 1000000 * 1000000 ∧
    ((0 ≤ t.Time.sec ∨ t.Time.nsec.val % 1000000 = 0) →
      (rt.UnmarshalJSON t.MarshalJSON.1).1.Time.Equal t.Time.truncateMillis) := by
  have e1 : t.MarshalJSON.1 = FormatInt (Int.tdiv t.Time.nanosSinceEpoch 1000000) := by
    rw [MarshalJSON_eq]
    show FormatInt (Int.tdiv t.Time.UnixNano 1000000) = _
    rw [UnixNano_of_inInt64 _ h]
  have hmul := tdiv_millis_mul_inInt64 _ h
  have e2 := UnmarshalJSON_of_fitting_millis rt _ hmul
  rw [e1, e2.1]
  refine ⟨rfl, e2.2.1, ?_⟩
  intro hz
  apply Time.equal_of_nanos
  show (Unix 0 _).nanosSinceEpoch = _
  rw [e2.2.1, tdiv_lit _ 1000000 (by norm_num)]
  unfold Time.truncateMillis Time.nanosSinceEpoch
  have hlt := t.Time.nsec.isLt
  simp only []
  rw [Nat.cast_sub (Nat.mod_le _ _)]
  push_cast
  split <;> omega

/-- C1 (amended), at the instant 2019-03-10T09:34:56.789123456Z. -/
theorem roundtrip_toward_epoch_witness :
    InInt64 (Time.nanosSinceEpoch ⟨1552210496, 789123456, Location.utc⟩) ∧
    ((Timestamp.mk (Unix 0 0)).UnmarshalJSON
      (Timestamp.mk ⟨1552210496, 789123456, Location.utc⟩).MarshalJSON.1).1.Time.Equal
      ⟨1552210496, 789000000, Location.utc⟩ :=
  ⟨by decide,
   (roundtrip_toward_epoch (Timestamp.mk (Unix 0 0))
     (Timestamp.mk ⟨1552210496, 789123456, Location.utc⟩) (by decide)).2.2
     (Or.inl (by decide))⟩

theorem UnmarshalJSON_of_int (rt : Timestamp) (b : String) (m : Int)
    (h : ParseInt (Trim b "\"") = .ok m) :
    rt.UnmarshalJSON b = ({ Time := Unix 0 (wrapInt64 (m * 1000000)) }, none) := by
  unfold Timestamp.UnmarshalJSON
  simp only [h]

theorem UnmarshalJSON_of_layout (rt : Timestamp) (b : String) (e : NumError) (t : Time)
    (h : ParseInt (Trim b "\"") = .error e)
    (ht : timeParse defaultDateTimeFormat (Trim b "\"") = .ok t) :
    rt.UnmarshalJSON b = ({ Time := t }, none) := by
  unfold Timestamp.UnmarshalJSON
  simp only [h, ht]

theorem UnmarshalJSON_of_neither (rt : Timestamp) (b : String) (e : NumError)
    (err : ParseError) (h : ParseInt (Trim b "\"") = .error e)
    (ht : timeParse defaultDateTimeFormat (Trim b "\"") = .error err) :
    rt.UnmarshalJSON b = (rt, some err) := by
  unfold Timestamp.UnmarshalJSON
  simp only [h, ht]

/-- C10: `UnmarshalJSON` returns an error exactly when the text between the
trimmed double quotes parses neither with `ParseInt` nor against the layout
`defaultDateTimeFormat`, and then the receiver is unchanged; when `ParseInt`
succeeds the integer branch is taken whatever the layout parser would say, and the
layout is the fallback; `not-a-timestamp` is rejected with an error. -/
theorem UnmarshalJSON_error_iff (rt : Timestamp) (b : String) :
    ((rt.UnmarshalJSON b).2 ≠ none ↔
      (∀ m, ParseInt (Trim b "\"") ≠ .ok m) ∧
      (∀ t, timeParse defaultDateTimeFormat (Trim b "\"") ≠ .ok t)) ∧
    ((rt.UnmarshalJSON b).2 ≠ none → (rt.UnmarshalJSON b).1 = rt) ∧
    (∀ m, ParseInt (Trim b "\"") = .ok m →
      rt.UnmarshalJSON b = ({ Time := Unix 0 (wrapInt64 (m * 1000000)) }, none)) ∧
    (∀ e t, ParseInt (Trim b "\"") = .error e →
      timeParse defaultDateTimeFormat (Trim b "\"") = .ok t →
      rt.UnmarshalJSON b = ({ Time := t }, none)) ∧
    defaultDateTimeFormat = "2006-01-02T15:04:05.999-0700" ∧
    rt.UnmarshalJSON "not-a-timestamp"
      = (rt, some { Layout := defaultDateTimeFormat, Value := "not-a-timestamp" }) := by
  refine ⟨?_, ?_, UnmarshalJSON_of_int rt b, UnmarshalJSON_of_layout rt b, rfl, rfl⟩
  · cases hp : ParseInt (Trim b "\"") with
    | ok m => simp [UnmarshalJSON_of_int rt b m hp]
    | error e =>
      cases ht : timeParse defaultDateTimeFormat (Trim b "\"") with
      | ok t => simp [UnmarshalJSON_of_layout rt b e t hp ht]
      | error err => simp [UnmarshalJSON_of_neither rt b e err hp ht]
  · cases hp : ParseInt (Trim b "\"") with
    | ok m => simp [UnmarshalJSON_of_int rt b m hp]
    | error e =>
      cases ht : timeParse defaultDateTimeFormat (Trim b "\"") with
      | ok t => simp [UnmarshalJSON_of_layout rt b e t hp ht]
      | error err => simp [UnmarshalJSON_of_neither rt b e err hp ht]

/-! ## Maps -/

theorem Params.get_set_self (m : Params) (k v : String) : (m.set k v).get k = some v := by
  simp [Params.get, Params.set, List.lookup]

theorem Params.lookup_filter_ne (m : Params) (k k' : String) (h : k' ≠ k) :
    List.lookup k' (m.filter (fun p => p.1 != k)) = List.lookup k' m := by
  induction m with
  | nil => rfl
  | cons a as ih =>
    obtain ⟨ak, av⟩ := a
    by_cases hak : ak = k
    · subst hak
      have h1 : (k' == ak) = false := by simpa using h
      simp [List.filter, List.lookup, h1, ih]
    · have h2 : (ak != k) = true := by simpa using hak
      simp only [List.filter, h2, List.lookup]
      rw [ih]

theorem Params.get_set_ne (m : Params) (k v k' : String) (h : k' ≠ k) :
    (m.set k v).get k' = m.get k' := by
  have h1 : (k' == k) = false := by simpa using h
  simp only [Params.get, Params.set, List.lookup, h1]
  exact Params.lookup_filter_ne m k k' h

/-! ## Keys -/

theorem entityKey_data (e : FilterEntity) :
    (entityKey e).data = 'f' :: ("ilter.".data ++ e.Condition.data ++ ".".data ++ e.Field.data) := by
  simp [entityKey, String.data_append]

theorem entityKey_ne_page_sort (e : FilterEntity) : entityKey e ≠ "page.sort" := by
  intro h
  have := congrArg String.data h
  rw [entityKey_data] at this
  exact absurd (List.cons.inj this).1 (by decide)

theorem entityKey_ne_page_page (e : FilterEntity) : entityKey e ≠ "page.page" := by
  intro h
  have := congrArg String.data h
  rw [entityKey_data] at this
  exact absurd (List.cons.inj this).1 (by decide)

/-! ## The two loops of `ConvertToFilterParams` -/

theorem addEntities_ok_iff (es : List (Option FilterEntity)) (p : Params) :
    (∃ m, addEntities es p = .ok m) ↔ none ∉ es := by
  induction es generalizing p with
  | nil => simp [addEntities]
  | cons a as ih =>
    cases a with
    | none => simp [addEntities]
    | some f => simp [addEntities, ih]

theorem addEntities_get_other (es : List (Option FilterEntity)) (p m : Params) (k : String)
    (hm : addEntities es p = .ok m) (hk : ∀ x, some x ∈ es → entityKey x ≠ k) :
    m.get k = p.get k := by
  induction es generalizing p with
  | nil =>
    simp only [addEntities, Except.ok.injEq] at hm
    rw [hm]
  | cons a as ih =>
    cases a with
    | none => simp [addEntities] at hm
    | some f =>
      simp only [addEntities] at hm
      rw [ih _ hm (fun x hx => hk x (List.mem_cons_of_mem _ hx))]
      exact Params.get_set_ne _ _ _ _ (Ne.symm (hk f (List.mem_cons_self _ _)))

theorem addEntities_get_last (pre post : List (Option FilterEntity)) (e : FilterEntity)
    (p m : Params) (hm : addEntities (pre ++ some e :: post) p = .ok m)
    (hk : ∀ x, some x ∈ post → entityKey x ≠ entityKey e) :
    m.get (entityKey e) = some e.Value := by
  induction pre generalizing p with
  | nil =>
    simp only [List.nil_append, addEntities] at hm
    rw [addEntities_get_other _ _ _ _ hm hk]
    exact Params.get_set_self _ _ _
  | cons a as ih =>
    cases a with
    | none => simp [addEntities] at hm
    | some f =>
      simp only [List.cons_append, addEntities] at hm
      exact ih _ hm

theorem exists_last_with_key (es : List (Option FilterEntity)) (e : FilterEntity)
    (he : some e ∈ es) :
    ∃ pre last post, es = pre ++ some last :: post ∧ entityKey last = entityKey e ∧
      ∀ x, some x ∈ post → entityKey x ≠ entityKey e := by
  induction es generalizing e with
  | nil => simp at he
  | cons a as ih =>
    by_cases h : ∃ x, some x ∈ as ∧ entityKey x = entityKey e
    · obtain ⟨x, hx, hxe⟩ := h
      obtain ⟨pre, last, post, h1, h2, h3⟩ := ih x hx
      refine ⟨a :: pre, last, post, by rw [h1]; rfl, h2.trans hxe, ?_⟩
      intro y hy
      rw [← hxe]
      exact h3 y hy
    · rcases List.mem_cons.1 he with h1 | h1
      · refine ⟨[], e, as, by rw [← h1]; rfl, rfl, ?_⟩
        intro x hx hxe
        exact h ⟨x, hx, hxe⟩
      · exact absurd ⟨e, h1, rfl⟩ h

theorem addEntities_get_ne_none (es : List (Option FilterEntity)) (m : Params) (k : String)
    (hm : addEntities es [] = .ok m) :
    m.get k ≠ none ↔ ∃ e, some e ∈ es ∧ entityKey e = k := by
  constructor
  · intro h
    by_contra hne
    have h1 := addEntities_get_other es [] m k hm (fun x hx hxe => hne ⟨x, hx, hxe⟩)
    rw [h1] at h
    exact h rfl
  · rintro ⟨e, he, hek⟩
    obtain ⟨pre, last, post, h1, h2, h3⟩ := exists_last_with_key es e he
    rw [h1] at hm
    have := addEntities_get_last pre post last [] m hm (fun x hx => by rw [h2]; exact h3 x hx)
    rw [← hek, ← h2, this]
    simp

theorem addOrders_ok_iff (os : List (Option FilterOrder)) (p : Params) :
    (∃ m, addOrders os p = .ok m) ↔ none ∉ os := by
  induction os generalizing p with
  | nil => simp [addOrders]
  | cons a as ih =>
    cases a with
    | none => simp [addOrders]
    | some f => simp [addOrders, ih]

theorem addOrders_get_other (os : List (Option FilterOrder)) (p m : Params) (k : String)
    (hm : addOrders os p = .ok m) (hk : k ≠ "page.sort") : m.get k = p.get k := by
  induction os generalizing p with
  | nil =>
    simp only [addOrders, Except.ok.injEq] at hm
    rw [hm]
  | cons a as ih =>
    cases a with
    | none => simp [addOrders] at hm
    | some f =>
      simp only [addOrders] at hm
      rw [ih _ hm]
      exact Params.get_set_ne _ _ _ _ hk

theorem addOrders_get_last (pre : List (Option FilterOrder)) (last : FilterOrder)
    (p m : Params) (hm : addOrders (pre ++ [some last]) p = .ok m) :
    m.get "page.sort" = some (orderValue last) := by
  induction pre generalizing p with
  | nil =>
    simp only [List.nil_append, addOrders, Except.ok.injEq] at hm
    rw [← hm]
    exact Params.get_set_self _ _ _
  | cons a as ih =>
    cases a with
    | none => simp [addOrders] at hm
    | some f =>
      simp only [List.cons_append, addOrders] at hm
      exact ih _ hm

theorem addOrders_get_sort_ne_none (os : List (Option FilterOrder)) (p m : Params)
    (hm : addOrders os p = .ok m) (hp : p.get "page.sort" = none) :
    m.get "page.sort" ≠ none ↔ os ≠ [] := by
  rcases List.eq_nil_or_concat os with h | ⟨pre, a, h⟩
  · subst h
    simp only [addOrders, Except.ok.injEq] at hm
    rw [← hm, hp]
    simp
  · rw [List.concat_eq_append] at h
    subst h
    cases a with
    | none =>
      have := (addOrders_ok_iff (pre ++ [none]) p).1 ⟨m, hm⟩
      simp at this
    | some last =>
      rw [addOrders_get_last pre last p m hm]
      simp

/-! ## ConvertToFilterParams -/

theorem Convert_of_no_selection (filter : FilterResource) (m : Params)
    (hs : filter.SelectionParams = none) :
    ConvertToFilterParams (some filter) = .ok m ↔ addEntities filter.Entities [] = .ok m := by
  cases h : addEntities filter.Entities [] with
  | error p => simp [ConvertToFilterParams, h]
  | ok p => simp [ConvertToFilterParams, h, hs]

theorem Convert_of_selection (filter : FilterResource) (sel : FilterSelectionParam)
    (m : Params) (hs : filter.SelectionParams = some sel) :
    ConvertToFilterParams (some filter) = .ok m ↔
      ∃ p, addEntities filter.Entities [] = .ok p ∧
        addOrders sel.Orders
          (if sel.PageNumber != 0 then p.set "page.page" (Itoa sel.PageNumber) else p)
          = .ok m := by
  cases h : addEntities filter.Entities [] with
  | error p => simp [ConvertToFilterParams, h]
  | ok p => simp [ConvertToFilterParams, h, hs]

theorem Convert_returns (filter : FilterResource)
    (h : none ∉ filter.Entities ∧
      ∀ sel, filter.SelectionParams = some sel → none ∉ sel.Orders) :
    ∃ m, ConvertToFilterParams (some filter) = .ok m := by
  obtain ⟨p, hp⟩ := (addEntities_ok_iff filter.Entities []).2 h.1
  cases hs : filter.SelectionParams with
  | none => exact ⟨p, (Convert_of_no_selection filter p hs).2 hp⟩
  | some sel =>
    obtain ⟨m, hm⟩ := (addOrders_ok_iff sel.Orders
      (if sel.PageNumber != 0 then p.set "page.page" (Itoa sel.PageNumber) else p)).2 (h.2 sel hs)
    exact ⟨m, (Convert_of_selection filter sel m hs).2 ⟨p, hp, hm⟩⟩

theorem addEntities_get_page_sort (es : List (Option FilterEntity)) (p : Params)
    (hp : addEntities es [] = .ok p) : p.get "page.sort" = none :=
  addEntities_get_other es [] p _ hp (fun x _ => entityKey_ne_page_sort x)

theorem addEntities_get_page_page (es : List (Option FilterEntity)) (p : Params)
    (hp : addEntities es [] = .ok p) : p.get "page.page" = none :=
  addEntities_get_other es [] p _ hp (fun x _ => entityKey_ne_page_page x)

theorem Convert_get_entity_key (filter : FilterResource) (m : Params) (k : String)
    (hm : ConvertToFilterParams (some filter) = .ok m)
    (h1 : k ≠ "page.sort") (h2 : k ≠ "page.page") :
    ∃ p, addEntities filter.Entities [] = .ok p ∧ m.get k = p.get k := by
  cases hs : filter.SelectionParams with
  | none => exact ⟨m, (Convert_of_no_selection filter m hs).1 hm, rfl⟩
  | some sel =>
    obtain ⟨p, hp, ho⟩ := (Convert_of_selection filter sel m hs).1 hm
    refine ⟨p, hp, ?_⟩
    rw [addOrders_get_other _ _ _ k ho h1]
    split
    · exact Params.get_set_ne _ _ _ _ h2
    · rfl

/-- C3: for every filter and every entity `e` among its entities, a map returned by
`ConvertToFilterParams` has the key `filter.<e.Condition>.<e.Field>`, and the value
under it is the `Value` of the last entity of the sequence that produces this key;
a map is returned whenever no entry of `Entities` or `Orders` is nil. -/
theorem ConvertToFilterParams_entity_key (filter : FilterResource) (e : FilterEntity)
    (he : some e ∈ filter.Entities) :
    ((none ∉ filter.Entities ∧
        ∀ sel, filter.SelectionParams = some sel → none ∉ sel.Orders) →
      ∃ m, ConvertToFilterParams (some filter) = .ok m) ∧
    ∀ m, ConvertToFilterParams (some filter) = .ok m →
      m.get ("filter." ++ e.Condition ++ "." ++ e.Field) ≠ none ∧
      ∃ pre last post, filter.Entities = pre ++ some last :: post ∧
        "filter." ++ last.Condition ++ "." ++ last.Field
          = "filter." ++ e.Condition ++ "." ++ e.Field ∧
        (∀ x, some x ∈ post →
          "filter." ++ x.Condition ++ "." ++ x.Field
            ≠ "filter." ++ e.Condition ++ "." ++ e.Field) ∧
        m.get ("filter." ++ e.Condition ++ "." ++ e.Field) = some last.Value := by
  refine ⟨Convert_returns filter, ?_⟩
  intro m hm
  obtain ⟨p, hp, hg⟩ := Convert_get_entity_key filter m (entityKey e) hm
    (entityKey_ne_page_sort e) (entityKey_ne_page_page e)
  obtain ⟨pre, last, post, h1, h2, h3⟩ := exists_last_with_key filter.Entities e he
  have hv : p.get (entityKey e) = some last.Value := by
    rw [h1] at hp
    rw [← h2]
    exact addEntities_get_last pre post last [] p hp (fun x hx => by rw [h2]; exact h3 x hx)
  have hv2 : m.get (entityKey e) = some last.Value := by rw [hg, hv]
  refine ⟨?_, pre, last, post, h1, h2, h3, hv2⟩
  show m.get (entityKey e) ≠ none
  rw [hv2]
  simp

/-- C3, for two entities with the same key: the value of the second one is stored. -/
theorem ConvertToFilterParams_entity_key_witness :
    ConvertToFilterParams (some ⟨"1", "f", "launch", "me",
        [some ⟨"name", "eq", "foo"⟩, some ⟨"name", "eq", "bar"⟩], none⟩)
      = .ok [("filter.eq.name", "bar")] ∧
    Params.get [("filter.eq.name", "bar")] ("filter." ++ "eq" ++ "." ++ "name") ≠ none :=
  ⟨by decide,
   ((ConvertToFilterParams_entity_key ⟨"1", "f", "launch", "me",
        [some ⟨"name", "eq", "foo"⟩, some ⟨"name", "eq", "bar"⟩], none⟩
      ⟨"name", "eq", "foo"⟩ (by decide)).2 [("filter.eq.name", "bar")] (by decide)).1⟩

/-- C4: a map returned by `ConvertToFilterParams` has the key `page.sort` exactly
when `SelectionParams` is present with a non-empty `Orders`, and then the value is
`<SortingColumn>,ASC` or `<SortingColumn>,DESC` of the last element of `Orders`
(`ASC` when `Asc` is true); the orders `[{a,true},{b,false}]` give `b,DESC`.  A map
is returned whenever no entry of `Entities` or `Orders` is nil. -/
theorem ConvertToFilterParams_page_sort (filter : FilterResource) :
    ((none ∉ filter.Entities ∧
        ∀ sel, filter.SelectionParams = some sel → none ∉ sel.Orders) →
      ∃ m, ConvertToFilterParams (some filter) = .ok m) ∧
    (∀ m, ConvertToFilterParams (some filter) = .ok m →
      (m.get "page.sort" ≠ none ↔
        ∃ sel, filter.SelectionParams = some sel ∧ sel.Orders ≠ []) ∧
      ∀ sel pre last, filter.SelectionParams = some sel →
        sel.Orders = pre ++ [some last] →
        m.get "page.sort"
          = some (last.SortingColumn ++ "," ++ (if last.Asc then "ASC" else "DESC"))) ∧
    ConvertToFilterParams (some ⟨"1", "f", "launch", "me", [],
        some ⟨0, [some ⟨"a", true⟩, some ⟨"b", false⟩]⟩⟩)
      = .ok [("page.sort", "b,DESC")] := by
  refine ⟨Convert_returns filter, ?_, by decide⟩
  intro m hm
  cases hs : filter.SelectionParams with
  | none =>
    have hp := (Convert_of_no_selection filter m hs).1 hm
    simp [addEntities_get_page_sort _ _ hp]
  | some sel =>
    obtain ⟨p, hp, ho⟩ := (Convert_of_selection filter sel m hs).1 hm
    have hq : Params.get (if sel.PageNumber != 0 then p.set "page.page" (Itoa sel.PageNumber)
        else p) "page.sort" = none := by
      split
      · rw [Params.get_set_ne _ _ _ _ (by decide)]
        exact addEntities_get_page_sort _ _ hp
      · exact addEntities_get_page_sort _ _ hp
    constructor
    · rw [addOrders_get_sort_ne_none _ _ _ ho hq]
      simp
    · intro sel' pre last hsel hl
      have : sel' = sel := (Option.some.inj hsel).symm
      subst this
      rw [hl] at ho
      exact addOrders_get_last pre last _ m ho

/-- C5: a map returned by `ConvertToFilterParams` has the key `page.page` exactly
when `SelectionParams` is present with `PageNumber != 0`, and then the value is the
decimal text of `PageNumber` (`strconv.Itoa`), which starts with a minus sign for a
negative number and parses back to `PageNumber`.  `PageNumber = 2` with empty
`Orders` gives `page.page = 2` and no `page.sort`.  A map is returned whenever no
entry of `Entities` or `Orders` is nil. -/
theorem ConvertToFilterParams_page_page (filter : FilterResource) :
    ((none ∉ filter.Entities ∧
        ∀ sel, filter.SelectionParams = some sel → none ∉ sel.Orders) →
      ∃ m, ConvertToFilterParams (some filter) = .ok m) ∧
    (∀ m, ConvertToFilterParams (some filter) = .ok m →
      (m.get "page.page" ≠ none ↔
        ∃ sel, filter.SelectionParams = some sel ∧ sel.PageNumber ≠ 0) ∧
      ∀ sel, filter.SelectionParams = some sel → sel.PageNumber ≠ 0 →
        m.get "page.page" = some (Itoa sel.PageNumber) ∧
        (sel.PageNumber < 0 →
          (Itoa sel.PageNumber).data = '-' :: (Itoa (-sel.PageNumber)).data) ∧
        (InInt64 sel.PageNumber → ParseInt (Itoa sel.PageNumber) = .ok sel.PageNumber)) ∧
    ConvertToFilterParams (some ⟨"1", "f", "launch", "me", [], some ⟨2, []⟩⟩)
      = .ok [("page.page", "2")] ∧
    Params.get [("page.page", "2")] "page.sort" = none ∧
    ConvertToFilterParams (some ⟨"1", "f", "launch", "me", [], some ⟨-3, []⟩⟩)
      = .ok [("page.page", "-3")] := by
  refine ⟨Convert_returns filter, ?_, by decide, by decide, by decide⟩
  intro m hm
  cases hs : filter.SelectionParams with
  | none =>
    have hp := (Convert_of_no_selection filter m hs).1 hm
    simp [addEntities_get_page_page _ _ hp]
  | some sel =>
    obtain ⟨p, hp, ho⟩ := (Convert_of_selection filter sel m hs).1 hm
    have hg := addOrders_get_other _ _ _ "page.page" ho (by decide)
    by_cases hz : sel.PageNumber = 0
    · have hb : (sel.PageNumber != 0) = false := by simp [hz]
      rw [hb] at hg
      simp only [Bool.false_eq_true, if_false] at hg
      rw [hg, addEntities_get_page_page _ _ hp]
      simp [hz]
    · have hb : (sel.PageNumber != 0) = true := by simp [hz]
      rw [hb] at hg
      simp only [if_true] at hg
      rw [Params.get_set_self] at hg
      constructor
      · rw [hg]; simp [hz]
      · intro sel' hsel hnz
        have : sel' = sel := (Option.some.inj hsel).symm
        subst this
        refine ⟨hg, ?_, ParseInt_FormatInt _⟩
        intro hneg
        have h2 : ¬ (-sel'.PageNumber < 0) := by omega
        simp [Itoa, FormatInt, hneg, h2]

/-- C6: for a filter whose `SelectionParams` is absent, or present with
`PageNumber = 0` and empty `Orders`, a map returned by `ConvertToFilterParams` is
the map the entity loop alone builds: a key is present exactly when it is
`filter.<Condition>.<Field>` of some entity, and neither `page.page` nor
`page.sort` occurs.  The single entity `{name, eq, foo}` gives exactly
`{filter.eq.name: foo}`.  A map is returned whenever no entry of `Entities` is nil. -/
theorem ConvertToFilterParams_entities_only (filter : FilterResource)
    (hsel : filter.SelectionParams = none ∨
      filter.SelectionParams = some ⟨0, []⟩) :
    (none ∉ filter.Entities → ∃ m, ConvertToFilterParams (some filter) = .ok m) ∧
    (∀ m, ConvertToFilterParams (some filter) = .ok m →
      addEntities filter.Entities [] = .ok m ∧
      (∀ k, m.get k ≠ none ↔
        ∃ e, some e ∈ filter.Entities ∧ k = "filter." ++ e.Condition ++ "." ++ e.Field) ∧
      m.get "page.page" = none ∧ m.get "page.sort" = none) ∧
    ConvertToFilterParams (some ⟨"1", "f", "launch", "me",
        [some ⟨"name", "eq", "foo"⟩], none⟩) = .ok [("filter.eq.name", "foo")] := by
  have key : ∀ m, ConvertToFilterParams (some filter) = .ok m ↔
      addEntities filter.Entities [] = .ok m := by
    intro m
    rcases hsel with hs | hs
    · exact Convert_of_no_selection filter m hs
    · rw [Convert_of_selection filter _ m hs]
      simp [addOrders]
  refine ⟨?_, ?_, by decide⟩
  · intro hn
    obtain ⟨p, hp⟩ := (addEntities_ok_iff filter.Entities []).2 hn
    exact ⟨p, (key p).2 hp⟩
  · intro m hm
    have hp := (key m).1 hm
    refine ⟨hp, ?_, addEntities_get_page_page _ _ hp, addEntities_get_page_sort _ _ hp⟩
    intro k
    rw [addEntities_get_ne_none _ m k hp]
    constructor
    · rintro ⟨e, he, hk⟩
      exact ⟨e, he, hk.symm⟩
    · rintro ⟨e, he, hk⟩
      exact ⟨e, he, hk.symm⟩

/-- C6, for a filter with `PageNumber = 0`, no orders and two entities. -/
theorem ConvertToFilterParams_entities_only_witness :
    addEntities [some ⟨"name", "eq", "foo"⟩, some ⟨"status", "in", "FAILED"⟩] []
      = .ok [("filter.in.status", "FAILED"), ("filter.eq.name", "foo")] ∧
    Params.get [("filter.in.status", "FAILED"), ("filter.eq.name", "foo")] "page.page" = none :=
  ⟨((ConvertToFilterParams_entities_only ⟨"1", "f", "launch", "me",
        [some ⟨"name", "eq", "foo"⟩, some ⟨"status", "in", "FAILED"⟩], some ⟨0, []⟩⟩
      (Or.inr rfl)).2.1 [("filter.in.status", "FAILED"), ("filter.eq.name", "foo")]
      (by decide)).1,
   by decide⟩

/-! ## The response hook -/

theorem dropWhile_eq_self_of_head {p : Char → Bool} {l : List Char}
    (h : ∀ c, l.head? = some c → p c = false) : l.dropWhile p = l := by
  cases l with
  | nil => rfl
  | cons a as => simp [List.dropWhile, h a rfl]

theorem TrimSpace_eq_self (s : String)
    (h1 : ∀ c, s.data.head? = some c → isSpace c = false)
    (h2 : ∀ c, s.data.getLast? = some c → isSpace c = false) : TrimSpace s = s := by
  unfold TrimSpace
  rw [dropWhile_eq_self_of_head h1]
  rw [dropWhile_eq_self_of_head (l := s.data.reverse)
    (fun c hc => h2 c (by rw [← hc, List.head?_reverse]))]
  simp

/-- C7, the claim as stated fails: for status 404 and the body `not found`
followed by a line feed the hook returns an error whose text ends with
`not found`; the body is not part of the text unchanged. -/
theorem onAfterResponse_trims_body :
    onAfterResponse ⟨404, "not found\n"⟩ = some "status code error: 404\nnot found" ∧
    onAfterResponse ⟨404, "not found\n"⟩ ≠ some ("status code error: 404\n" ++ "not found\n") ∧
    ¬ ("not found\n".data <:+: "status code error: 404\nnot found".data) := by
  decide

/-- C7 (amended): the hook returns an error exactly when the status code divided by
100 (integer division) is at least 4, that is when the code is at least 400; the
error text is `status code error: `, the decimal status code, a line feed and the
body without its leading and trailing white space (resty's `Response.String`), so a
body that neither starts nor ends with white space is carried unchanged, whatever
its content; every code in 400..599 gives an error and every code in 100..399 none. -/
theorem onAfterResponse_error (rs : RestyResponse) :
    (onAfterResponse rs ≠ none ↔ 4 ≤ Int.tdiv rs.StatusCode 100) ∧
    (onAfterResponse rs ≠ none ↔ 400 ≤ rs.StatusCode) ∧
    (onAfterResponse rs ≠ none →
      onAfterResponse rs
        = some ("status code error: " ++ Itoa rs.StatusCode ++ "\n" ++ TrimSpace rs.body)) ∧
    ((∀ c, rs.body.data.head? = some c → isSpace c = false) →
      (∀ c, rs.body.data.getLast? = some c → isSpace c = false) →
      onAfterResponse rs ≠ none →
      onAfterResponse rs
        = some ("status code error: " ++ Itoa rs.StatusCode ++ "\n" ++ rs.body)) ∧
    (400 ≤ rs.StatusCode → rs.StatusCode ≤ 599 → onAfterResponse rs ≠ none) ∧
    (100 ≤ rs.StatusCode → rs.StatusCode ≤ 399 → onAfterResponse rs = none) := by
  have hdiv : 4 ≤ Int.tdiv rs.StatusCode 100 ↔ 400 ≤ rs.StatusCode := by
    rw [tdiv_lit _ 100 (by norm_num)]
    split <;> omega
  have hiff : onAfterResponse rs ≠ none ↔ 4 ≤ Int.tdiv rs.StatusCode 100 := by
    unfold onAfterResponse
    split <;> simp_all
  have hval : onAfterResponse rs ≠ none →
      onAfterResponse rs
        = some ("status code error: " ++ Itoa rs.StatusCode ++ "\n" ++ TrimSpace rs.body) := by
    intro h
    have h4 := hiff.1 h
    unfold onAfterResponse RestyResponse.String
    rw [if_pos h4]
  refine ⟨hiff, hiff.trans hdiv, hval, ?_, ?_, ?_⟩
  · intro h1 h2 h
    rw [hval h, TrimSpace_eq_self _ h1 h2]
  · intro h1 _
    exact (hiff.trans hdiv).2 h1
  · intro _ h2
    by_contra h
    have := (hiff.trans hdiv).1 h
    omega

/-- C7 (amended), at status 404 with a body that is not JSON. -/
theorem onAfterResponse_error_witness :
    onAfterResponse ⟨404, "<html>not found</html>"⟩
      = some ("status code error: " ++ Itoa 404 ++ "\n" ++ "<html>not found</html>") ∧
    onAfterResponse ⟨399, "x"⟩ = none :=
  ⟨(onAfterResponse_error ⟨404, "<html>not found</html>"⟩).2.2.2.1
      (by decide) (by decide) (by decide),
   (onAfterResponse_error ⟨399, "x"⟩).2.2.2.2.2 (by decide) (by decide)⟩

/-! ## GetLaunchesByFilterName -/

/-- C8, the code at a decoded filter page with no content and `Page.Size = 20`:
the call panics at `filter.Content[0]` instead of returning the error
`no filter nope found`; and at a page with one filter and `Page.Size = 0` the
filter is reported as not found.  In both runs only the filter query was sent. -/
theorem GetLaunchesByFilterName_checks_page_size :
    (Client.GetLaunchesByFilterName
        ⟨"p", ⟨fun _ _ => (⟨[], ⟨⟨1, 20, 0, 0⟩⟩⟩, none),
               fun _ _ => (⟨[], ⟨⟨0, 0, 0, 0⟩⟩⟩, none)⟩⟩ "nope").result
      = .error Panic.indexOutOfRange ∧
    (Client.GetLaunchesByFilterName
        ⟨"p", ⟨fun _ _ => (⟨[], ⟨⟨1, 20, 0, 0⟩⟩⟩, none),
               fun _ _ => (⟨[], ⟨⟨0, 0, 0, 0⟩⟩⟩, none)⟩⟩ "nope").result
      ≠ .ok (none, some "no filter nope found") ∧
    (Client.GetLaunchesByFilterName
        ⟨"p", ⟨fun _ _ => (⟨[], ⟨⟨1, 20, 0, 0⟩⟩⟩, none),
               fun _ _ => (⟨[], ⟨⟨0, 0, 0, 0⟩⟩⟩, none)⟩⟩ "nope").calls
      = [Call.filterQuery "p" "nope"] ∧
    (Client.GetLaunchesByFilterName
        ⟨"p", ⟨fun _ _ => (⟨[some ⟨"1", "mine", "launch", "me", [], none⟩],
                            ⟨⟨1, 0, 1, 1⟩⟩⟩, none),
               fun _ _ => (⟨[], ⟨⟨0, 0, 0, 0⟩⟩⟩, none)⟩⟩ "mine").result
      = .ok (none, some "no filter mine found") := by
  decide

theorem GetLaunchesByFilterName_small (c : Client) (name : String)
    (herr : (c.GetFiltersByName name).2 = none)
    (hs : (c.GetFiltersByName name).1.Response.Page.Size < 1) :
    c.GetLaunchesByFilterName name =
      { calls := [Call.filterQuery c.project name]
        result := .ok (none, some ("no filter " ++ name ++ " found")) } := by
  unfold Client.GetLaunchesByFilterName
  simp only [herr, if_pos hs]

theorem GetLaunchesByFilterName_empty (c : Client) (name : String)
    (herr : (c.GetFiltersByName name).2 = none)
    (hs : ¬ (c.GetFiltersByName name).1.Response.Page.Size < 1)
    (hc : (c.GetFiltersByName name).1.Content = []) :
    c.GetLaunchesByFilterName name =
      { calls := [Call.filterQuery c.project name]
        result := .error Panic.indexOutOfRange } := by
  unfold Client.GetLaunchesByFilterName
  simp only [herr, if_neg hs, hc]

theorem GetLaunchesByFilterName_large (c : Client) (name : String)
    (herr : (c.GetFiltersByName name).2 = none)
    (hs : ¬ (c.GetFiltersByName name).1.Response.Page.Size < 1) (e : Option String) :
    (c.GetLaunchesByFilterName name).result ≠ .ok (none, e) := by
  unfold Client.GetLaunchesByFilterName
  simp only [herr, if_neg hs]
  cases (c.GetFiltersByName name).1.Content with
  | nil => simp
  | cons first rest =>
    simp only []
    cases ConvertToFilterParams first with
    | error p => simp
    | ok params => simp

/-- What `GetLaunchesByFilterName` does for every decoded filter page: the error
`no filter <name> found` is returned exactly when `Page.Size < 1`, whatever the
content; with `Page.Size >= 1` an empty content is a panic and no launch query. -/
theorem GetLaunchesByFilterName_not_found_iff (c : Client) (name : String)
    (herr : (c.GetFiltersByName name).2 = none) :
    ((c.GetLaunchesByFilterName name).result
        = .ok (none, some ("no filter " ++ name ++ " found")) ↔
      (c.GetFiltersByName name).1.Response.Page.Size < 1) ∧
    (1 ≤ (c.GetFiltersByName name).1.Response.Page.Size →
      (c.GetFiltersByName name).1.Content = [] →
      (c.GetLaunchesByFilterName name).result = .error Panic.indexOutOfRange ∧
      (c.GetLaunchesByFilterName name).calls = [Call.filterQuery c.project name]) := by
  constructor
  · constructor
    · intro h
      by_contra hs
      exact GetLaunchesByFilterName_large c name herr hs _ h
    · intro hs
      rw [GetLaunchesByFilterName_small c name herr hs]
  · intro hs hc
    rw [GetLaunchesByFilterName_empty c name herr (by omega) hc]
    exact ⟨rfl, rfl⟩

end Gorp
